import Mathlib

/-!
Verification of the GitHub-backed index of the OpenTTD content server
(`bananas_server/index/github.py`).

The module keeps a local mirror of a remote git repository.  Its refresh
protocol is: fetch from the remote named "origin" (retrying once on the
toolchain's transient BadName failure), force-checkout the configured
branch, unlink every untracked file, and repeatedly prune empty
directories until a full bottom-up pass removes none.

The development below is a shallow embedding of that code:

* paths are lists of segments (`List String`); the string handed to the
  `root.startswith(".git")` test of `_remove_empty_folders` is rebuilt
  with `rootStr`, mirroring the roots produced by `os.walk`;
* the working tree is a finite set of directories and files
  (`WorkTree`); one bottom-up `os.walk` pass of `_remove_empty_folders`
  is `prunePass` (with `topdown=False` each directory listing is taken
  before its children are processed, so a pass removes exactly the
  directories that were empty when the pass started);
* the `while` loop of `_fetch_latest` is `pruneLoopF` driven by enough
  fuel; the theorems for the termination claim show the fuel bound is
  exact (extra fuel never changes the result);
* the git toolchain operations (fetch, force checkout, the untracked
  file listing) are not part of the repository; they are modelled from
  the specification's description of them, with fetch outcomes supplied
  by an oracle `Nat → Option GitErr`.
-/

namespace BananasGithub

/-- Python's `str.startswith`: character-list inclusion at the front.
Used for the `root.startswith(".git")` test of `_remove_empty_folders`. -/
def strStarts (p s : String) : Bool := p.data.isPrefixOf s.data

/-- The root string `os.walk` reports for the directory `d` (a list of
path segments) inside `folder`: `folder/seg1/.../segN`. -/
def rootStr (folder : String) (d : List String) : String :=
  d.foldl (fun a seg => a ++ "/" ++ seg) folder

/-- A working tree: the set of directories (as segment paths relative to
the walked folder; `[]` is the folder itself) and the set of files. -/
structure WorkTree where
  dirs : List (List String)
  files : List (List String)
deriving DecidableEq, Repr

/-- `x` is an immediate child entry of directory `d`. -/
def isChildOf (d x : List String) : Bool :=
  x.length == d.length + 1 && d.isPrefixOf x

/-- The `not folders and not files` test of `_remove_empty_folders`:
directory `d` has no entry directly inside it. -/
def isEmptyDir (t : WorkTree) (d : List String) : Bool :=
  t.dirs.all (fun d2 => !(isChildOf d d2)) && t.files.all (fun f => !(isChildOf d f))

/-- A directory is removed by a pass iff its walk root does not start
with ".git" (the `continue` guard) and it is empty. -/
def removable (folder : String) (t : WorkTree) (d : List String) : Bool :=
  !(strStarts ".git" (rootStr folder d)) && isEmptyDir t d

/-- One full bottom-up pass of `_remove_empty_folders`: with
`topdown=False` every directory listing is captured before any of its
descendants is processed, so the pass removes exactly the directories
that are empty at the start of the pass; the returned flag is the
`removed` result of the Python function. -/
def prunePass (folder : String) (t : WorkTree) : WorkTree × Bool :=
  (⟨t.dirs.filter (fun d => !(removable folder t d)), t.files⟩,
   t.dirs.any (fun d => removable folder t d))

/-- The `while self._remove_empty_folders(...)` loop, driven by fuel;
`pruneLoop` supplies fuel `t.dirs.length + 1`, which the termination
theorems prove sufficient and stable. -/
def pruneLoopF (folder : String) : Nat → WorkTree → WorkTree
  | 0, t => t
  | Nat.succ n, t =>
    let p := prunePass folder t
    if p.2 then pruneLoopF folder n p.1 else t

/-- The converged result of the pruning loop of `_fetch_latest`. -/
def pruneLoop (folder : String) (t : WorkTree) : WorkTree :=
  pruneLoopF folder (t.dirs.length + 1) t

/-! ### Basic facts about the pruning pass and loop -/

theorem prunePass_files (folder : String) (t : WorkTree) :
    (prunePass folder t).1.files = t.files := rfl

theorem pruneLoopF_files (folder : String) :
    ∀ (n : Nat) (t : WorkTree), (pruneLoopF folder n t).files = t.files := by
  intro n
  induction n with
  | zero => intro t; rfl
  | succ n ih =>
    intro t
    show (if (prunePass folder t).2 then pruneLoopF folder n (prunePass folder t).1
          else t).files = t.files
    by_cases h : (prunePass folder t).2 = true
    · rw [if_pos h, ih]
      rfl
    · rw [if_neg h]

theorem pruneLoop_files (folder : String) (t : WorkTree) :
    (pruneLoop folder t).files = t.files :=
  pruneLoopF_files folder _ t

/-- A pass that reports a removal has strictly fewer directories
afterwards. -/
theorem prunePass_removed_lt (folder : String) (t : WorkTree)
    (h : (prunePass folder t).2 = true) :
    (prunePass folder t).1.dirs.length < t.dirs.length := by
  have hex : ∃ d ∈ t.dirs, removable folder t d = true := by
    simpa [prunePass, List.any_eq_true] using h
  apply List.length_filter_lt_length_iff_exists.mpr
  obtain ⟨d, hd, hr⟩ := hex
  exact ⟨d, hd, by simp [hr]⟩

/-- A pass that reports no removal leaves the tree unchanged. -/
theorem prunePass_not_removed_eq (folder : String) (t : WorkTree)
    (h : (prunePass folder t).2 = false) :
    (prunePass folder t).1 = t := by
  have hall : ∀ d ∈ t.dirs, removable folder t d = false := by
    intro d hd
    have := List.any_eq_false.mp (by simpa [prunePass] using h) d hd
    simpa using this
  show (⟨t.dirs.filter _, t.files⟩ : WorkTree) = t
  have : t.dirs.filter (fun d => !(removable folder t d)) = t.dirs := by
    apply List.filter_eq_self.mpr
    intro d hd
    simp [hall d hd]
  rw [this]

/-- With fuel exceeding the number of directories, the loop reaches a
pass that removes nothing. -/
theorem pruneLoopF_fix (folder : String) :
    ∀ (n : Nat) (t : WorkTree), t.dirs.length < n →
      (prunePass folder (pruneLoopF folder n t)).2 = false := by
  intro n
  induction n with
  | zero => intro t h; omega
  | succ n ih =>
    intro t h
    show (prunePass folder
      (if (prunePass folder t).2 then pruneLoopF folder n (prunePass folder t).1
       else t)).2 = false
    by_cases hr : (prunePass folder t).2 = true
    · rw [if_pos hr]
      apply ih
      have hlt := prunePass_removed_lt folder t hr
      omega
    · rw [if_neg hr]
      exact Bool.eq_false_iff.mpr hr

/-- Extra fuel beyond the bound never changes the loop's result. -/
theorem pruneLoopF_stable (folder : String) :
    ∀ (n : Nat) (t : WorkTree), t.dirs.length < n →
      ∀ (k : Nat), pruneLoopF folder (n + k) t = pruneLoopF folder n t := by
  intro n
  induction n with
  | zero => intro t h; omega
  | succ n ih =>
    intro t h k
    have hs : n + 1 + k = (n + k) + 1 := by omega
    rw [hs]
    show (if (prunePass folder t).2 then pruneLoopF folder (n + k) (prunePass folder t).1
          else t)
       = (if (prunePass folder t).2 then pruneLoopF folder n (prunePass folder t).1
          else t)
    by_cases hr : (prunePass folder t).2 = true
    · rw [if_pos hr, if_pos hr]
      apply ih
      have hlt := prunePass_removed_lt folder t hr
      omega
    · rw [if_neg hr, if_neg hr]

theorem pruneLoop_fix (folder : String) (t : WorkTree) :
    (prunePass folder (pruneLoop folder t)).2 = false :=
  pruneLoopF_fix folder (t.dirs.length + 1) t (by omega)

/-- The loop is a no-op on a tree on which a pass removes nothing. -/
theorem pruneLoop_of_fix (folder : String) (t : WorkTree)
    (h : (prunePass folder t).2 = false) :
    pruneLoop folder t = t := by
  show (if (prunePass folder t).2 then _ else t) = t
  rw [h]
  simp

theorem pruneLoop_idem (folder : String) (t : WorkTree) :
    pruneLoop folder (pruneLoop folder t) = pruneLoop folder t :=
  pruneLoop_of_fix folder _ (pruneLoop_fix folder t)

/-! ### The ".git" startswith test along walk roots -/

/-- ".git" cannot start a string straddling a "/" separator: if it is at
the front of `cs ++ '/' :: rest` it is already at the front of `cs`. -/
theorem dotgit_through_slash (cs rest : List Char)
    (h : ('.' :: 'g' :: 'i' :: 't' :: []) <+: cs ++ '/' :: rest) :
    ('.' :: 'g' :: 'i' :: 't' :: []) <+: cs := by
  match cs, h with
  | [], h => obtain ⟨u, hu⟩ := h; simp at hu
  | [c1], h => obtain ⟨u, hu⟩ := h; simp at hu
  | [c1, c2], h => obtain ⟨u, hu⟩ := h; simp at hu
  | [c1, c2, c3], h => obtain ⟨u, hu⟩ := h; simp at hu
  | c1 :: c2 :: c3 :: c4 :: cs', h =>
    obtain ⟨u, hu⟩ := h
    simp at hu
    obtain ⟨h1, h2, h3, h4, _⟩ := hu
    subst h1; subst h2; subst h3; subst h4
    exact ⟨cs', rfl⟩

theorem strStarts_append_seg (a seg : String)
    (h : strStarts ".git" (a ++ "/" ++ seg) = false) :
    strStarts ".git" a = false := by
  unfold strStarts at h ⊢
  rw [Bool.eq_false_iff] at h ⊢
  intro hpre
  apply h
  have hdata : (a ++ "/" ++ seg).data = a.data ++ '/' :: seg.data := by
    rw [String.data_append, String.data_append]
    simp
  rw [hdata]
  have hp : ('.' :: 'g' :: 'i' :: 't' :: []) <+: a.data := by
    have := (List.isPrefixOf_iff_prefix).mp hpre
    simpa using this
  apply (List.isPrefixOf_iff_prefix).mpr
  show (String.data ".git") <+: _
  have : (String.data ".git") = ('.' :: 'g' :: 'i' :: 't' :: []) := rfl
  rw [this]
  exact hp.trans (List.prefix_append _ _)

/-- If the walked folder's own path does not start with ".git" then no
walk root inside it does: the guard of `_remove_empty_folders` never
fires for such a folder. -/
theorem strStarts_rootStr (folder : String)
    (h : strStarts ".git" folder = false) :
    ∀ (ds : List String), strStarts ".git" (rootStr folder ds) = false := by
  intro ds
  induction ds generalizing folder with
  | nil => exact h
  | cons s ds ih =>
    show strStarts ".git" (rootStr (folder ++ "/" ++ s) ds) = false
    apply ih
    rw [Bool.eq_false_iff]
    intro hpre
    have hfolder : strStarts ".git" folder = true := by
      unfold strStarts at hpre ⊢
      have hdata : (folder ++ "/" ++ s).data = folder.data ++ '/' :: s.data := by
        rw [String.data_append, String.data_append]
        simp
      rw [hdata] at hpre
      have hp := (List.isPrefixOf_iff_prefix).mp hpre
      have : (String.data ".git") = ('.' :: 'g' :: 'i' :: 't' :: []) := rfl
      rw [this] at hp ⊢
      exact (List.isPrefixOf_iff_prefix).mpr (dotgit_through_slash _ _ hp)
    rw [hfolder] at h
    exact Bool.true_eq_false.mp h

/-! ### Ancestor closure: directories above existing files survive pruning -/

/-- A working tree is ancestor-closed when every proper prefix of a file
path is present as a directory (as on a real filesystem). -/
def closedTree (t : WorkTree) : Prop :=
  ∀ f ∈ t.files, ∀ k, k < f.length → f.take k ∈ t.dirs

instance (t : WorkTree) : Decidable (closedTree t) := by
  unfold closedTree
  infer_instance

theorem take_isChildOf (f : List String) (k : Nat) (hk : k < f.length) :
    isChildOf (f.take k) (f.take (k + 1)) = true := by
  rw [isChildOf, Bool.and_eq_true]
  constructor
  · have h1 : (f.take (k + 1)).length = k + 1 := by
      rw [List.length_take]
      omega
    have h2 : (f.take k).length = k := by
      rw [List.length_take]
      omega
    simp [h1, h2]
  · apply (List.isPrefixOf_iff_prefix).mpr
    have h3 : f.take k = (f.take (k + 1)).take k := by
      rw [List.take_take]
      have : min k (k + 1) = k := by omega
      rw [this]
    rw [h3]
    exact List.take_prefix _ _

theorem closed_not_empty (t : WorkTree) (hc : closedTree t)
    (f : List String) (hf : f ∈ t.files) (k : Nat) (hk : k < f.length) :
    isEmptyDir t (f.take k) = false := by
  rw [Bool.eq_false_iff]
  intro he
  rw [isEmptyDir, Bool.and_eq_true] at he
  obtain ⟨hdirs, hfiles⟩ := he
  by_cases hlt : k + 1 < f.length
  · have hmem : f.take (k + 1) ∈ t.dirs := hc f hf (k + 1) hlt
    have hall := List.all_eq_true.mp hdirs _ hmem
    rw [take_isChildOf f k hk] at hall
    simp at hall
  · have hlen : k + 1 = f.length := by omega
    have hfull : f.take (k + 1) = f := by
      rw [hlen]
      exact List.take_length f
    have hall := List.all_eq_true.mp hfiles f hf
    have hchild := take_isChildOf f k hk
    rw [hfull] at hchild
    rw [hchild] at hall
    simp at hall

theorem prunePass_closed (folder : String) (t : WorkTree) (hc : closedTree t) :
    closedTree (prunePass folder t).1 := by
  intro f hf k hk
  have hf' : f ∈ t.files := by simpa [prunePass] using hf
  have hmem : f.take k ∈ t.dirs := hc f hf' k hk
  show f.take k ∈ (prunePass folder t).1.dirs
  rw [prunePass]
  apply List.mem_filter.mpr
  refine ⟨hmem, ?_⟩
  simp [removable, closed_not_empty t hc f hf' k hk]

theorem pruneLoopF_closed (folder : String) :
    ∀ (n : Nat) (t : WorkTree), closedTree t → closedTree (pruneLoopF folder n t) := by
  intro n
  induction n with
  | zero => intro t hc; exact hc
  | succ n ih =>
    intro t hc
    show closedTree
      (if (prunePass folder t).2 then pruneLoopF folder n (prunePass folder t).1 else t)
    by_cases hr : (prunePass folder t).2 = true
    · rw [if_pos hr]
      exact ih _ (prunePass_closed folder t hc)
    · rw [if_neg hr]
      exact hc

theorem pruneLoop_closed (folder : String) (t : WorkTree) (hc : closedTree t) :
    closedTree (pruneLoop folder t) :=
  pruneLoopF_closed folder _ t hc

/-! ### The git toolchain model used by `_fetch_latest`

The git library itself is not part of the repository; the operations
below are modelled from the specification: a fetch outcome oracle, a
forced checkout that makes the branch's committed files the tracked
working set while leaving untracked files alone, and the untracked-file
listing (which never reports files under the metadata directory). -/

/-- Errors surfaced by the toolchain during a refresh. `badName` is the
transient fetch failure that `_fetch_latest` retries once. -/
inductive GitErr where
  | badName
  | noSuchRef
  | other : String → GitErr
deriving DecidableEq, Repr

/-- The path of the version-control metadata directory inside the
working tree. -/
def gitDirSeg : List String := [".git"]

/-- Local repository state: the working tree on disk, the files tracked
by the currently checked-out commit, and the remote-tracking refs
(branch name to committed file list) last fetched from origin. -/
structure RepoState where
  tree : WorkTree
  tracked : List (List String)
  remoteRefs : List (String × List (List String))
deriving DecidableEq, Repr

/-- All proper prefixes of a path: the directories that must exist for
the path to exist. -/
def ancestors (f : List String) : List (List String) :=
  (List.range f.length).map (fun k => f.take k)

/-- Modelled from the spec: `origin.refs[branch].checkout(force=True,
B=branch)` — "forcibly check out the target branch from the remote's
reference, overwriting any local branch of the same name and discarding
any local commits or working-tree modifications under version control".
The branch's committed files `b` become the tracked set and are present
on disk; files tracked before but absent from `b` disappear; untracked
files are untouched; directories needed by `b` exist afterwards. -/
def checkoutForce (b : List (List String)) (s : RepoState) : RepoState :=
  { s with
    tree :=
      ⟨s.tree.dirs ++ (b.flatMap ancestors).filter (fun d => !(s.tree.dirs.contains d)),
       b ++ s.tree.files.filter (fun f => !(s.tracked.contains f) && !(b.contains f))⟩,
    tracked := b }

/-- A file survives the untracked-file cleanup of `_fetch_latest` iff it
is tracked or lives under the metadata directory (the toolchain's
untracked-file listing never reports metadata files). -/
def keptAfterClean (tracked : List (List String)) (f : List String) : Bool :=
  tracked.contains f || gitDirSeg.isPrefixOf f

/-- Modelled from the spec: `for file_name in self._git.untracked_files:
os.unlink(...)` — every file the status facility reports as untracked is
deleted from the working tree. -/
def unlinkUntracked (s : RepoState) : RepoState :=
  { s with tree := ⟨s.tree.dirs, s.tree.files.filter (keptAfterClean s.tracked)⟩ }

/-- The files the toolchain's status facility would report as untracked:
on disk, not tracked, and not under the metadata directory. -/
def untrackedFiles (s : RepoState) : List (List String) :=
  s.tree.files.filter (fun f => !(s.tracked.contains f) && !(gitDirSeg.isPrefixOf f))

/-- The state transformation of a successful `_fetch_latest` run after
the fetch: record the fetched refs, force-checkout the branch content
`b`, unlink untracked files, prune empty directories to convergence. -/
def refreshState (folder : String) (b : List (List String))
    (remote : List (String × List (List String))) (s : RepoState) : RepoState :=
  let s1 : RepoState := { s with remoteRefs := remote }
  let s2 := checkoutForce b s1
  let s3 := unlinkUntracked s2
  { s3 with tree := pruneLoop folder s3.tree }

/-- The `try: origin.fetch() except git.exc.BadName: origin.fetch()`
block: the result of the fetch phase together with the number of fetch
attempts performed, given the oracle of attempt outcomes (`none` is a
successful attempt). -/
def fetchAttempts (fetchRes : Nat → Option GitErr) : Except GitErr Unit × Nat :=
  match fetchRes 0 with
  | none => (Except.ok (), 1)
  | some GitErr.badName =>
    match fetchRes 1 with
    | none => (Except.ok (), 2)
    | some e => (Except.error e, 2)
  | some e => (Except.error e, 1)

/-- `origin.refs[branch]`: look up a branch among the fetched refs. -/
def lookupRef (name : String) : List (String × List (List String)) → Option (List (List String))
  | [] => none
  | r :: rs => if r.1 == name then some r.2 else lookupRef name rs

/-- The outcome of `Index._fetch_latest`: fetch (with the single BadName
retry), then look up the branch among the fetched refs and rebuild the
tree. -/
def fetchResult (folder : String) (fetchRes : Nat → Option GitErr)
    (remote : List (String × List (List String))) (branch : String) (s : RepoState) :
    Except GitErr RepoState :=
  match (fetchAttempts fetchRes).1 with
  | Except.error e => Except.error e
  | Except.ok _ =>
    match lookupRef branch remote with
    | none => Except.error GitErr.noSuchRef
    | some b => Except.ok (refreshState folder b remote s)

/-- `Index._fetch_latest` with its observable environment handling: the
outcome, together with the list of SSH environment overrides applied to
the fetch calls, in order (every fetch runs inside
`custom_environment(GIT_SSH_COMMAND=self._ssh_command)`). -/
def fetchLatest (folder : String) (ssh : Option String) (fetchRes : Nat → Option GitErr)
    (remote : List (String × List (List String))) (branch : String) (s : RepoState) :
    Except GitErr RepoState × List (Option String) :=
  (fetchResult folder fetchRes remote branch s,
   List.replicate (fetchAttempts fetchRes).2 ssh)

/-! ### Initialization (`Index.__init__`) and `reload` -/

/-- The module-level configuration set by `click_index_github`:
`_github_url`, `_github_branch`, `_github_private_key`. -/
structure Globals where
  url : String
  branch : String
  privateKey : Option (List Nat)
deriving DecidableEq, Repr

/-- Python truthiness of `_github_private_key`: `None` and empty bytes
are falsy. -/
def keyTruthy : Option (List Nat) → Bool
  | some (_ :: _) => true
  | _ => false

/-- The `_ssh_command` computed by `Index.__init__`: when a private key
is present it is written to a temporary file and the command references
that file's name; otherwise no override is prepared. -/
def mkSshCommand (key : Option (List Nat)) (tmpName : String) : Option String :=
  if keyTruthy key then some ("ssh -i " ++ tmpName) else none

/-- `self._git.remotes.origin`-style access: the URL of the first remote
with the given name. -/
def lookupRemote (name : String) : List (String × String) → Option String
  | [] => none
  | r :: rs => if r.1 == name then some r.2 else lookupRemote name rs

/-- `origin.set_url(url)`: rewrite the URL of the named remote in
place. -/
def setRemoteUrl (name url : String) (rs : List (String × String)) :
    List (String × String) :=
  rs.map (fun r => if r.1 == name then (r.1, url) else r)

/-- The origin-repair block of `Index.__init__`: create the "origin"
remote when missing, then correct its URL when it differs from the
configured one. -/
def ensureOrigin (url : String) (rs : List (String × String)) : List (String × String) :=
  let rs1 := if rs.any (fun r => r.1 == "origin") then rs else rs ++ [("origin", url)]
  match lookupRemote "origin" rs1 with
  | some u => if u == url then rs1 else setRemoteUrl "origin" url rs1
  | none => rs1

/-- The error kinds `git.Repo(path)` can raise; the first two are the
ones `Index.__init__` catches. -/
inductive OpenErr where
  | noSuchPath
  | invalidGitRepository
  | other : String → OpenErr
deriving DecidableEq, Repr

/-- The `try: git.Repo(...) except NoSuchPathError / except
InvalidGitRepositoryError` block: both caught cases fall back to
`git.Repo.init`, producing the fresh repository `fresh`; other errors
propagate. -/
def openOrInit {α : Type} (openRes : Except OpenErr α) (fresh : α) : Except OpenErr α :=
  match openRes with
  | Except.ok r => Except.ok r
  | Except.error OpenErr.noSuchPath => Except.ok fresh
  | Except.error OpenErr.invalidGitRepository => Except.ok fresh
  | Except.error e => Except.error e

/-- What `Index.__init__` persists on the object: the SSH command and
the repaired remote list.  The branch is deliberately not a field: the
constructor never reads `_github_branch`. -/
structure IndexState where
  sshCommand : Option String
  remotes : List (String × String)
deriving DecidableEq, Repr

/-- `Index.__init__` under configuration `g`, with `tmpName` the name of
the scoped temporary key file and `rs0` the remotes found on disk. -/
def mkIndex (g : Globals) (tmpName : String) (rs0 : List (String × String)) : IndexState :=
  { sshCommand := mkSshCommand g.privateKey tmpName,
    remotes := ensureOrigin g.url rs0 }

/-- `Index.reload`: run `_fetch_latest(_github_branch)` reading the
branch from the configuration current at call time, then delegate to the
base collaborator's reload, whose (modelled) outcome is `base`.  Returns
the reload outcome together with the branch name that was passed to the
refresh step. -/
def reload {β : Type} (folder : String) (ix : IndexState) (g : Globals)
    (fetchRes : Nat → Option GitErr) (remote : List (String × List (List String)))
    (s : RepoState) (base : Except GitErr β) : Except GitErr β × String :=
  match (fetchLatest folder ix.sshCommand fetchRes remote g.branch s).1 with
  | Except.error e => (Except.error e, g.branch)
  | Except.ok _ => (base, g.branch)

/-! ### Claim C1: metadata protection in the pruning pass (refuted) -/

/-- A working tree for the folder "local": the metadata directory holds
one file and one empty subdirectory `branches` (as `git init` creates). -/
def gitTreeEx : WorkTree :=
  ⟨[[], [".git"], [".git", "branches"]], [[".git", "HEAD"]]⟩

/-- C1: the pruning pass is claimed to skip every directory inside the
metadata subtree.  The code only skips walk roots that literally start
with ".git", but `os.walk` roots start with the walked folder's path, so
for the folder "local" the empty directory `.git/branches`, which lies
inside the metadata subtree, is removed by a single pass: the guard
never fires and the claim fails on the code. -/
theorem prune_removes_metadata_subdir :
    [".git", "branches"] ∈ gitTreeEx.dirs ∧
    gitDirSeg.isPrefixOf [".git", "branches"] = true ∧
    strStarts ".git" (rootStr "local" [".git", "branches"]) = false ∧
    (prunePass "local" gitTreeEx).2 = true ∧
    (prunePass "local" gitTreeEx).1.dirs = [[], [".git"]] ∧
    [".git", "branches"] ∉ (prunePass "local" gitTreeEx).1.dirs := by
  decide

/-! ### Claim C2: the fetch retry policy -/

/-- C2: on a first BadName failure the fetch is retried exactly once
(two attempts), with the retry's outcome — success or any error,
BadName included — surfaced as is; a first failure of any other kind is
not retried (one attempt) and propagates; a first success performs no
retry. -/
theorem fetch_retry_policy (fetchRes : Nat → Option GitErr) :
    (fetchRes 0 = none → fetchAttempts fetchRes = (Except.ok (), 1)) ∧
    (fetchRes 0 = some GitErr.badName → fetchRes 1 = none →
      fetchAttempts fetchRes = (Except.ok (), 2)) ∧
    (∀ e, fetchRes 0 = some GitErr.badName → fetchRes 1 = some e →
      fetchAttempts fetchRes = (Except.error e, 2)) ∧
    (∀ e, fetchRes 0 = some e → e ≠ GitErr.badName →
      fetchAttempts fetchRes = (Except.error e, 1)) := by
  refine ⟨?_, ?_, ?_, ?_⟩
  · intro h0
    simp [fetchAttempts, h0]
  · intro h0 h1
    simp [fetchAttempts, h0, h1]
  · intro e h0 h1
    simp [fetchAttempts, h0, h1]
  · intro e h0 hne
    cases e with
    | badName => exact absurd rfl hne
    | noSuchRef => simp [fetchAttempts, h0]
    | other m => simp [fetchAttempts, h0]

/-- A fetch oracle whose first attempt fails with BadName and whose
retry fails with a non-transient error. -/
def fetchResRetryFails : Nat → Option GitErr :=
  fun n => if n = 0 then some GitErr.badName else some (GitErr.other "again")

theorem fetch_retry_policy_witness :
    fetchAttempts fetchResRetryFails = (Except.error (GitErr.other "again"), 2) :=
  (fetch_retry_policy fetchResRetryFails).2.2.1 (GitErr.other "again") rfl rfl

/-! ### Claim C8: termination of the pruning loop -/

/-- C8: a pass reports a removal exactly when it removed at least one
directory (otherwise it leaves the tree unchanged and reports so); the
loop's converged result is a fixpoint — a further pass removes nothing —
and running the loop any longer than the `dirs.length + 1` bound used by
`pruneLoop` changes nothing, so the iteration converges on every finite
working tree. -/
theorem prune_loop_terminates (folder : String) (t : WorkTree) :
    ((prunePass folder t).2 = false ↔ (prunePass folder t).1 = t) ∧
    ((prunePass folder t).2 = true →
      (prunePass folder t).1.dirs.length < t.dirs.length) ∧
    (prunePass folder (pruneLoop folder t)).2 = false ∧
    (∀ k, pruneLoopF folder (t.dirs.length + 1 + k) t = pruneLoop folder t) := by
  refine ⟨⟨prunePass_not_removed_eq folder t, ?_⟩,
          prunePass_removed_lt folder t, pruneLoop_fix folder t, ?_⟩
  · intro heq
    cases hr : (prunePass folder t).2 with
    | false => rfl
    | true =>
      have hlt := prunePass_removed_lt folder t hr
      rw [heq] at hlt
      omega
  · intro k
    exact pruneLoopF_stable folder (t.dirs.length + 1) t (by omega) k

/-- A tree where removing a child makes its parent newly empty, so the
loop needs several passes. -/
def cascadeTreeEx : WorkTree := ⟨[[], ["a"], ["a", "b"]], []⟩

theorem prune_loop_terminates_witness :
    ((prunePass "local" cascadeTreeEx).2 = false ↔
      (prunePass "local" cascadeTreeEx).1 = cascadeTreeEx) ∧
    ((prunePass "local" cascadeTreeEx).2 = true →
      (prunePass "local" cascadeTreeEx).1.dirs.length < cascadeTreeEx.dirs.length) ∧
    (prunePass "local" (pruneLoop "local" cascadeTreeEx)).2 = false ∧
    (∀ k, pruneLoopF "local" (cascadeTreeEx.dirs.length + 1 + k) cascadeTreeEx
      = pruneLoop "local" cascadeTreeEx) :=
  prune_loop_terminates "local" cascadeTreeEx

/-! ### Claim C6: opening or initializing the repository -/

/-- C6: `path does not exist` and `path exists but is not a repository`
are handled identically — both produce the freshly initialized
repository and neither error propagates — while a successful open is
used as is. -/
theorem open_or_init_identical (α : Type) (fresh : α) :
    openOrInit (Except.error OpenErr.noSuchPath) fresh = Except.ok fresh ∧
    openOrInit (Except.error OpenErr.invalidGitRepository) fresh = Except.ok fresh ∧
    openOrInit (Except.error OpenErr.noSuchPath) fresh
      = openOrInit (Except.error OpenErr.invalidGitRepository) fresh ∧
    (∀ r : α, openOrInit (Except.ok r) fresh = Except.ok r) :=
  ⟨rfl, rfl, rfl, fun _ => rfl⟩

/-! ### Claim C7: the SSH environment override on fetches -/

/-- C7: every fetch performed by a refresh — the retry included — runs
under the environment override computed at initialization: no override
at all when no private key is configured, and the SSH invocation string
referencing the key's temporary file when one is. -/
theorem ssh_override_policy (key : Option (List Nat)) (tmpName folder : String)
    (fetchRes : Nat → Option GitErr) (remote : List (String × List (List String)))
    (branch : String) (s : RepoState) :
    (∀ env ∈ (fetchLatest folder (mkSshCommand key tmpName) fetchRes remote branch s).2,
       env = mkSshCommand key tmpName) ∧
    mkSshCommand none tmpName = none ∧
    (∀ b bs, mkSshCommand (some (b :: bs)) tmpName = some ("ssh -i " ++ tmpName)) := by
  refine ⟨?_, rfl, fun _ _ => rfl⟩
  intro env henv
  exact List.eq_of_mem_replicate henv

/-- A small consistent repository state used by the concrete witnesses. -/
def repoEx : RepoState :=
  ⟨⟨[[], [".git"]], [[".git", "HEAD"]]⟩, [], []⟩

theorem ssh_override_policy_witness :
    (∀ env ∈ (fetchLatest "local" (mkSshCommand (some [7]) "key.pem") (fun _ => none)
        [] "main" repoEx).2,
       env = mkSshCommand (some [7]) "key.pem") ∧
    mkSshCommand none "key.pem" = none ∧
    (∀ b bs, mkSshCommand (some (b :: bs)) "key.pem" = some ("ssh -i " ++ "key.pem")) :=
  ssh_override_policy (some [7]) "key.pem" "local" (fun _ => none) [] "main" repoEx

/-! ### Claim C9: reload refreshes, then delegates to the base reload -/

/-- C9: `reload` first runs the refresh with the configured branch; a
refresh failure propagates unchanged and the base reload's outcome is
not substituted; on refresh success the call returns exactly what the
base collaborator's reload returns (including a base failure, which
propagates unchanged). -/
theorem reload_delegates (β : Type) (folder : String) (ix : IndexState) (g : Globals)
    (fetchRes : Nat → Option GitErr) (remote : List (String × List (List String)))
    (s : RepoState) (base : Except GitErr β) :
    (∀ e, (fetchLatest folder ix.sshCommand fetchRes remote g.branch s).1 = Except.error e →
      (reload folder ix g fetchRes remote s base).1 = Except.error e) ∧
    (∀ s', (fetchLatest folder ix.sshCommand fetchRes remote g.branch s).1 = Except.ok s' →
      (reload folder ix g fetchRes remote s base).1 = base) := by
  constructor
  · intro e h
    unfold reload
    rw [h]
  · intro s' h
    unfold reload
    rw [h]

/-- A fetch oracle that always fails with a non-transient error. -/
def fetchResDown : Nat → Option GitErr := fun _ => some (GitErr.other "down")

theorem reload_delegates_witness :
    (reload "local" ⟨none, []⟩ ⟨"u", "main", none⟩ fetchResDown [] repoEx
      (Except.ok 0)).1 = Except.error (GitErr.other "down") :=
  (reload_delegates Nat "local" ⟨none, []⟩ ⟨"u", "main", none⟩ fetchResDown [] repoEx
    (Except.ok 0)).1 (GitErr.other "down") rfl

/-! ### Claim C10: the branch is read at call time, not captured -/

/-- C10: the branch handed to the refresh step of `reload` is the
configuration value current at the moment of the call: the constructor
records nothing branch-dependent, so an index built under one
configuration reloads exactly like one built under the current
configuration (with the same URL and key), and the branch passed to the
refresh is the call-time one. -/
theorem reload_uses_current_branch (β : Type) (folder tmpName : String)
    (g1 g2 : Globals) (rs0 : List (String × String))
    (fetchRes : Nat → Option GitErr) (remote : List (String × List (List String)))
    (s : RepoState) (base : Except GitErr β)
    (hurl : g1.url = g2.url) (hkey : g1.privateKey = g2.privateKey) :
    (reload folder (mkIndex g1 tmpName rs0) g2 fetchRes remote s base).2 = g2.branch ∧
    reload folder (mkIndex g1 tmpName rs0) g2 fetchRes remote s base
      = reload folder (mkIndex g2 tmpName rs0) g2 fetchRes remote s base := by
  have hix : mkIndex g1 tmpName rs0 = mkIndex g2 tmpName rs0 := by
    unfold mkIndex
    rw [hurl, hkey]
  constructor
  · unfold reload
    cases (fetchLatest folder (mkIndex g1 tmpName rs0).sshCommand fetchRes remote
        g2.branch s).1 with
    | error e => rfl
    | ok s' => rfl
  · rw [hix]

theorem reload_uses_current_branch_witness :
    ((reload "local" (mkIndex ⟨"u", "main", none⟩ "t.pem" []) ⟨"u", "dev", none⟩
        (fun _ => none) [] repoEx (Except.ok 0)).2 = "dev" ∧
      reload "local" (mkIndex ⟨"u", "main", none⟩ "t.pem" []) ⟨"u", "dev", none⟩
        (fun _ => none) [] repoEx (Except.ok 0)
        = reload "local" (mkIndex ⟨"u", "dev", none⟩ "t.pem" []) ⟨"u", "dev", none⟩
          (fun _ => none) [] repoEx (Except.ok 0)) :=
  reload_uses_current_branch Nat "local" "t.pem" ⟨"u", "main", none⟩ ⟨"u", "dev", none⟩
    [] (fun _ => none) [] repoEx (Except.ok 0) rfl rfl

/-! ### Claim C5: the origin remote invariant at initialization -/

theorem lookupRemote_none_of_no_origin (rs : List (String × String))
    (h : rs.any (fun r => r.1 == "origin") = false) :
    lookupRemote "origin" rs = none := by
  induction rs with
  | nil => rfl
  | cons r rs ih =>
    rw [List.any_cons, Bool.or_eq_false_iff] at h
    obtain ⟨h1, h2⟩ := h
    show (if r.1 == "origin" then some r.2 else lookupRemote "origin" rs) = none
    rw [h1]
    simp [ih h2]

theorem lookupRemote_append_right (rs l2 : List (String × String))
    (h : lookupRemote "origin" rs = none) :
    lookupRemote "origin" (rs ++ l2) = lookupRemote "origin" l2 := by
  induction rs with
  | nil => rfl
  | cons r rs ih =>
    cases hq : (r.1 == "origin") with
    | true =>
      exfalso
      have : (if r.1 == "origin" then some r.2 else lookupRemote "origin" rs) = none := h
      rw [hq] at this
      simp at this
    | false =>
      have h2 : lookupRemote "origin" rs = none := by
        have : (if r.1 == "origin" then some r.2 else lookupRemote "origin" rs) = none := h
        rw [hq] at this
        simpa using this
      show (if r.1 == "origin" then some r.2 else lookupRemote "origin" (rs ++ l2))
        = lookupRemote "origin" l2
      rw [hq]
      simp [ih h2]

theorem lookupRemote_any_some (rs : List (String × String))
    (h : rs.any (fun r => r.1 == "origin") = true) :
    ∃ u, lookupRemote "origin" rs = some u := by
  induction rs with
  | nil => simp at h
  | cons r rs ih =>
    by_cases hq : r.1 = "origin"
    · exact ⟨r.2, by simp [lookupRemote, hq]⟩
    · rw [List.any_cons] at h
      have h2 : rs.any (fun r => r.1 == "origin") = true := by
        have h1 : (r.1 == "origin") = false := by simp [hq]
        rw [h1] at h
        simpa using h
      obtain ⟨u, hu⟩ := ih h2
      exact ⟨u, by simp [lookupRemote, hq, hu]⟩

theorem lookupRemote_setUrl (rs : List (String × String)) (url u : String)
    (h : lookupRemote "origin" rs = some u) :
    lookupRemote "origin" (setRemoteUrl "origin" url rs) = some url := by
  induction rs with
  | nil => simp [lookupRemote] at h
  | cons r rs ih =>
    by_cases hq : r.1 = "origin"
    · simp [setRemoteUrl, lookupRemote, hq]
    · have h2 : lookupRemote "origin" rs = some u := by
        have : (if r.1 == "origin" then some r.2 else lookupRemote "origin" rs) = some u := h
        simpa [hq] using this
      have := ih h2
      simpa [setRemoteUrl, lookupRemote, hq] using this

theorem ensureOrigin_no_origin (url : String) (rs : List (String × String))
    (h : rs.any (fun r => r.1 == "origin") = false) :
    ensureOrigin url rs = rs ++ [("origin", url)] := by
  have hnone := lookupRemote_none_of_no_origin rs h
  unfold ensureOrigin
  rw [h]
  simp only [Bool.false_eq_true, if_false]
  rw [lookupRemote_append_right rs [("origin", url)] hnone]
  simp [lookupRemote]

theorem ensureOrigin_has_origin (url : String) (rs : List (String × String)) (u : String)
    (hany : rs.any (fun r => r.1 == "origin") = true)
    (hu : lookupRemote "origin" rs = some u) :
    ensureOrigin url rs = if u == url then rs else setRemoteUrl "origin" url rs := by
  unfold ensureOrigin
  rw [hany]
  simp only [if_true]
  rw [hu]

/-- C5: after the constructor's origin-repair block, the remote named
"origin" exists and resolves to the configured URL: a missing origin is
created with that URL, an origin with a different URL is rewritten in
place to it, and an already-correct origin is left untouched. -/
theorem origin_remote_invariant (url : String) (rs : List (String × String)) :
    lookupRemote "origin" (ensureOrigin url rs) = some url ∧
    (rs.any (fun r => r.1 == "origin") = false →
      ensureOrigin url rs = rs ++ [("origin", url)]) ∧
    (∀ u, lookupRemote "origin" rs = some u → u ≠ url →
      ensureOrigin url rs = setRemoteUrl "origin" url rs) ∧
    (lookupRemote "origin" rs = some url → ensureOrigin url rs = rs) := by
  by_cases hany : rs.any (fun r => r.1 == "origin") = true
  · obtain ⟨u, hu⟩ := lookupRemote_any_some rs hany
    have hshape := ensureOrigin_has_origin url rs u hany hu
    by_cases huu : u = url
    · subst huu
      rw [if_pos (by simp)] at hshape
      refine ⟨by rw [hshape]; exact hu, ?_, ?_, fun _ => hshape⟩
      · intro hfalse
        rw [hany] at hfalse
        exact absurd hfalse (by simp)
      · intro u' hu' hne
        rw [hu] at hu'
        exact absurd (Option.some.inj hu').symm hne
    · rw [if_neg (by simp [huu])] at hshape
      refine ⟨?_, ?_, fun _ _ _ => hshape, ?_⟩
      · rw [hshape]
        exact lookupRemote_setUrl rs url u hu
      · intro hfalse
        rw [hany] at hfalse
        exact absurd hfalse (by simp)
      · intro hurl
        rw [hu] at hurl
        exact absurd (Option.some.inj hurl) huu
  · have hfalse : rs.any (fun r => r.1 == "origin") = false := by
      cases hq : rs.any (fun r => r.1 == "origin") with
      | false => rfl
      | true => exact absurd hq hany
    have hnone := lookupRemote_none_of_no_origin rs hfalse
    have hshape := ensureOrigin_no_origin url rs hfalse
    refine ⟨?_, fun _ => hshape, ?_, ?_⟩
    · rw [hshape, lookupRemote_append_right rs [("origin", url)] hnone]
      simp [lookupRemote]
    · intro u hu
      rw [hnone] at hu
      exact absurd hu (by simp)
    · intro hu
      rw [hnone] at hu
      exact absurd hu (by simp)

theorem origin_remote_invariant_witness :
    (lookupRemote "origin"
        (ensureOrigin "https://github.com/OpenTTD/BaNaNaS" [("origin", "old-url")])
      = some "https://github.com/OpenTTD/BaNaNaS") ∧
    (ensureOrigin "https://github.com/OpenTTD/BaNaNaS" [("origin", "old-url")]
      = setRemoteUrl "origin" "https://github.com/OpenTTD/BaNaNaS" [("origin", "old-url")]) := by
  have h := origin_remote_invariant "https://github.com/OpenTTD/BaNaNaS" [("origin", "old-url")]
  exact ⟨h.1, h.2.2.1 "old-url" rfl (by decide)⟩

/-! ### Structure extensionality helpers -/

theorem workTree_eq {a b : WorkTree} (h1 : a.dirs = b.dirs) (h2 : a.files = b.files) :
    a = b := by
  cases a
  cases b
  simp_all

theorem repoState_eq {a b : RepoState} (h1 : a.tree = b.tree)
    (h2 : a.tracked = b.tracked) (h3 : a.remoteRefs = b.remoteRefs) : a = b := by
  cases a
  cases b
  simp_all

/-! ### Anatomy of a successful refresh -/

theorem fetchResult_ok_inv (folder : String) (fetchRes : Nat → Option GitErr)
    (remote : List (String × List (List String))) (branch : String) (s s' : RepoState)
    (h : fetchResult folder fetchRes remote branch s = Except.ok s') :
    ∃ b, lookupRef branch remote = some b ∧ s' = refreshState folder b remote s := by
  unfold fetchResult at h
  cases hfa : (fetchAttempts fetchRes).1 with
  | error e =>
    rw [hfa] at h
    exact absurd h (by simp)
  | ok u =>
    rw [hfa] at h
    cases hl : lookupRef branch remote with
    | none =>
      rw [hl] at h
      exact absurd h (by simp)
    | some b =>
      rw [hl] at h
      exact ⟨b, rfl, (Except.ok.inj h).symm⟩

theorem refreshState_tracked (folder : String) (b : List (List String))
    (remote : List (String × List (List String))) (s : RepoState) :
    (refreshState folder b remote s).tracked = b := rfl

theorem refreshState_remoteRefs (folder : String) (b : List (List String))
    (remote : List (String × List (List String))) (s : RepoState) :
    (refreshState folder b remote s).remoteRefs = remote := rfl

theorem refreshState_files (folder : String) (b : List (List String))
    (remote : List (String × List (List String))) (s : RepoState) :
    (refreshState folder b remote s).tree.files
      = (checkoutForce b { s with remoteRefs := remote }).tree.files.filter
          (keptAfterClean b) := by
  show (pruneLoop folder _).files = _
  rw [pruneLoop_files]
  rfl

theorem refreshState_untracked (folder : String) (b : List (List String))
    (remote : List (String × List (List String))) (s : RepoState) :
    untrackedFiles (refreshState folder b remote s) = [] := by
  unfold untrackedFiles
  simp only [refreshState_tracked]
  rw [refreshState_files]
  rw [List.filter_eq_nil_iff]
  intro f hf
  have hk : keptAfterClean b f = true := (List.mem_filter.mp hf).2
  intro hcontra
  rw [Bool.and_eq_true] at hcontra
  obtain ⟨h1, h2⟩ := hcontra
  rw [keptAfterClean, Bool.or_eq_true] at hk
  cases hk with
  | inl hc =>
    rw [hc] at h1
    simp at h1
  | inr hg =>
    rw [hg] at h2
    simp at h2

theorem refreshState_no_empty (folder : String) (b : List (List String))
    (remote : List (String × List (List String))) (s : RepoState)
    (hfolder : strStarts ".git" folder = false) :
    ∀ d ∈ (refreshState folder b remote s).tree.dirs,
      isEmptyDir (refreshState folder b remote s).tree d = false := by
  intro d hd
  have hfix : (prunePass folder (refreshState folder b remote s).tree).2 = false := by
    show (prunePass folder (pruneLoop folder _)).2 = false
    exact pruneLoop_fix folder _
  have hrem : removable folder (refreshState folder b remote s).tree d = false := by
    have := List.any_eq_false.mp (by simpa [prunePass] using hfix) d hd
    simpa using this
  rw [removable, strStarts_rootStr folder hfolder d] at hrem
  simpa using hrem

/-! ### Claim C3: a successful refresh leaves a clean tree -/

/-- C3: whenever `_fetch_latest` returns without raising, the resulting
working tree has no untracked files (none outside the metadata
directory that the target branch's committed tree lacks) and no empty
directory outside the metadata subtree; failures surface as an
`Except.error`, never as a success value. -/
theorem refresh_success_clean (folder : String) (ssh : Option String)
    (fetchRes : Nat → Option GitErr) (remote : List (String × List (List String)))
    (branch : String) (s s' : RepoState) (trace : List (Option String))
    (hfolder : strStarts ".git" folder = false)
    (h : fetchLatest folder ssh fetchRes remote branch s = (Except.ok s', trace)) :
    untrackedFiles s' = [] ∧
    ∀ d ∈ s'.tree.dirs, gitDirSeg.isPrefixOf d = false →
      isEmptyDir s'.tree d = false := by
  have h1 : fetchResult folder fetchRes remote branch s = Except.ok s' := by
    have := congrArg Prod.fst h
    simpa [fetchLatest] using this
  obtain ⟨b, hb, rfl⟩ := fetchResult_ok_inv folder fetchRes remote branch s s' h1
  refine ⟨refreshState_untracked folder b remote s, ?_⟩
  intro d hd _
  exact refreshState_no_empty folder b remote s hfolder d hd

/-- The committed files of the example branch. -/
def branchEx : List (List String) := [["data", "a.txt"]]

/-- The example remote: one branch "main". -/
def remoteEx : List (String × List (List String)) := [("main", branchEx)]

/-- A dirty but ancestor-closed working state: a stale tracked file, an
untracked junk file, a soon-to-be-empty directory, and git metadata. -/
def dirtyRepoEx : RepoState :=
  ⟨⟨[[], ["data"], ["old"], [".git"]],
    [["data", "a.txt"], ["junk.txt"], [".git", "HEAD"]]⟩,
   [["data", "a.txt"], ["old", "gone.txt"]], []⟩

theorem refresh_success_clean_witness :
    untrackedFiles (refreshState "local" branchEx remoteEx dirtyRepoEx) = [] ∧
    ∀ d ∈ (refreshState "local" branchEx remoteEx dirtyRepoEx).tree.dirs,
      gitDirSeg.isPrefixOf d = false →
      isEmptyDir (refreshState "local" branchEx remoteEx dirtyRepoEx).tree d = false :=
  refresh_success_clean "local" none (fun _ => none) remoteEx "main" dirtyRepoEx
    (refreshState "local" branchEx remoteEx dirtyRepoEx) [none] (by decide) rfl

/-! ### Claim C4: idempotence of the refresh -/

theorem filter_kept_self (b : List (List String)) :
    b.filter (keptAfterClean b) = b := by
  apply List.filter_eq_self.mpr
  intro f hf
  show (b.contains f || gitDirSeg.isPrefixOf f) = true
  have hc : b.contains f = true := by simpa using hf
  rw [hc]
  rfl

/-- After a checkout followed by the untracked cleanup the tree is
ancestor-closed again: the checkout creates the branch ancestors, and
surviving junk keeps the ancestors it had in the (closed) input tree. -/
theorem closed_after_clean (folder : String) (b : List (List String))
    (remote : List (String × List (List String))) (s : RepoState)
    (hcl : closedTree s.tree) :
    closedTree (unlinkUntracked (checkoutForce b { s with remoteRefs := remote })).tree := by
  intro f hf k hk
  have hf' : f ∈ (b ++ s.tree.files.filter
      (fun g => !(s.tracked.contains g) && !(b.contains g))).filter (keptAfterClean b) := hf
  have hf2 := (List.mem_filter.mp hf').1
  show f.take k ∈ s.tree.dirs
      ++ (b.flatMap ancestors).filter (fun d => !(s.tree.dirs.contains d))
  rw [List.mem_append] at hf2
  cases hf2 with
  | inl hfb =>
    by_cases hc : s.tree.dirs.contains (f.take k) = true
    · exact List.mem_append_left _ (by simpa using hc)
    · apply List.mem_append_right
      apply List.mem_filter.mpr
      have hcf : s.tree.dirs.contains (f.take k) = false := by
        cases hq : s.tree.dirs.contains (f.take k) with
        | false => rfl
        | true => exact absurd hq hc
      constructor
      · rw [List.mem_flatMap]
        refine ⟨f, hfb, ?_⟩
        rw [ancestors, List.mem_map]
        exact ⟨k, List.mem_range.mpr hk, rfl⟩
      · simpa using hcf
  | inr hfJ =>
    have hfs : f ∈ s.tree.files := (List.mem_filter.mp hfJ).1
    exact List.mem_append_left _ (hcl f hfs k hk)

/-- A state already produced by a refresh is a fixed point of the same
refresh: the checkout, the cleanup and the pruning all become no-ops. -/
theorem refreshState_steady (folder : String) (b J : List (List String))
    (remote : List (String × List (List String))) (u : RepoState)
    (h1 : u.tree.files = b ++ J)
    (h2 : ∀ f ∈ J, b.contains f = false)
    (h3 : ∀ f ∈ J, keptAfterClean b f = true)
    (h4 : closedTree u.tree)
    (h5 : u.tracked = b)
    (h6 : u.remoteRefs = remote)
    (h7 : pruneLoop folder u.tree = u.tree) :
    refreshState folder b remote u = u := by
  have hupd : ({ u with remoteRefs := remote } : RepoState) = u :=
    repoState_eq rfl rfl h6.symm
  have hco : checkoutForce b u = u := by
    apply repoState_eq
    · apply workTree_eq
      · show u.tree.dirs
            ++ (b.flatMap ancestors).filter (fun d => !(u.tree.dirs.contains d))
          = u.tree.dirs
        have hA : (b.flatMap ancestors).filter (fun d => !(u.tree.dirs.contains d)) = [] := by
          rw [List.filter_eq_nil_iff]
          intro d hdmem
          rw [List.mem_flatMap] at hdmem
          obtain ⟨f, hfb, hdanc⟩ := hdmem
          rw [ancestors, List.mem_map] at hdanc
          obtain ⟨k, hkmem, hdk⟩ := hdanc
          rw [List.mem_range] at hkmem
          have hfu : f ∈ u.tree.files := by
            rw [h1]
            exact List.mem_append_left _ hfb
          have hmem : f.take k ∈ u.tree.dirs := h4 f hfu k hkmem
          rw [← hdk]
          simpa using hmem
        rw [hA, List.append_nil]
      · show b ++ u.tree.files.filter
            (fun f => !(u.tracked.contains f) && !(b.contains f))
          = u.tree.files
        rw [h5, h1, List.filter_append]
        have hbnil : b.filter (fun f => !(b.contains f) && !(b.contains f)) = [] := by
          rw [List.filter_eq_nil_iff]
          intro f hfb
          simpa using hfb
        have hJs : J.filter (fun f => !(b.contains f) && !(b.contains f)) = J := by
          apply List.filter_eq_self.mpr
          intro f hfJ
          simpa using h2 f hfJ
        rw [hbnil, hJs, List.nil_append]
    · exact h5.symm
    · rfl
  have hun : unlinkUntracked u = u := by
    apply repoState_eq
    · apply workTree_eq
      · rfl
      · show u.tree.files.filter (keptAfterClean u.tracked) = u.tree.files
        rw [h5, h1, List.filter_append, filter_kept_self]
        have hJk : J.filter (keptAfterClean b) = J :=
          List.filter_eq_self.mpr (fun f hf => by simp [h3 f hf])
        rw [hJk]
    · rfl
    · rfl
  show ({ unlinkUntracked (checkoutForce b ({ u with remoteRefs := remote })) with
      tree := pruneLoop folder
        (unlinkUntracked (checkoutForce b ({ u with remoteRefs := remote }))).tree } : RepoState)
    = u
  rw [hupd, hco, hun, h7]

/-- Running the refresh transformation twice with the same branch
content gives the same state as running it once. -/
theorem refreshState_idem (folder : String) (b : List (List String))
    (remote : List (String × List (List String))) (s : RepoState)
    (hcl : closedTree s.tree) :
    refreshState folder b remote (refreshState folder b remote s)
      = refreshState folder b remote s := by
  apply refreshState_steady folder b
    ((s.tree.files.filter
        (fun g => !(s.tracked.contains g) && !(b.contains g))).filter (keptAfterClean b))
    remote
  · rw [refreshState_files]
    show ((b ++ s.tree.files.filter
        (fun g => !(s.tracked.contains g) && !(b.contains g))).filter (keptAfterClean b)) = _
    rw [List.filter_append, filter_kept_self]
  · intro f hfJ
    have hq0 := (List.mem_filter.mp (List.mem_filter.mp hfJ).1).2
    rw [Bool.and_eq_true] at hq0
    have := hq0.2
    cases hq : b.contains f with
    | false => rfl
    | true =>
      rw [hq] at this
      simp at this
  · intro f hfJ
    exact (List.mem_filter.mp hfJ).2
  · show closedTree (pruneLoop folder
      (unlinkUntracked (checkoutForce b { s with remoteRefs := remote })).tree)
    exact pruneLoop_closed folder _ (closed_after_clean folder b remote s hcl)
  · rfl
  · rfl
  · show pruneLoop folder (pruneLoop folder
      (unlinkUntracked (checkoutForce b { s with remoteRefs := remote })).tree) = _
    exact pruneLoop_idem folder _

/-- C4: with the remote unchanged between two consecutive successful
refreshes (the same fetched refs, successful fetches), the second
refresh returns the very state the first one produced: the working tree
after the second call is identical to the tree after the first. -/
theorem refresh_idempotent (folder : String) (ssh : Option String)
    (remote : List (String × List (List String))) (branch : String)
    (s s1 : RepoState) (trace : List (Option String))
    (hcl : closedTree s.tree)
    (h : fetchLatest folder ssh (fun _ => none) remote branch s = (Except.ok s1, trace)) :
    (fetchLatest folder ssh (fun _ => none) remote branch s1).1 = Except.ok s1 := by
  have h1 : fetchResult folder (fun _ => none) remote branch s = Except.ok s1 := by
    have := congrArg Prod.fst h
    simpa [fetchLatest] using this
  obtain ⟨b, hb, rfl⟩ := fetchResult_ok_inv folder (fun _ => none) remote branch s s1 h1
  show (match lookupRef branch remote with
    | none => Except.error GitErr.noSuchRef
    | some b2 => Except.ok (refreshState folder b2 remote (refreshState folder b remote s)))
    = Except.ok (refreshState folder b remote s)
  rw [hb]
  show Except.ok (refreshState folder b remote (refreshState folder b remote s))
    = Except.ok (refreshState folder b remote s)
  rw [refreshState_idem folder b remote s hcl]

theorem refresh_idempotent_witness :
    (fetchLatest "local" none (fun _ => none) remoteEx "main"
        (refreshState "local" branchEx remoteEx dirtyRepoEx)).1
      = Except.ok (refreshState "local" branchEx remoteEx dirtyRepoEx) :=
  refresh_idempotent "local" none remoteEx "main" dirtyRepoEx
    (refreshState "local" branchEx remoteEx dirtyRepoEx) [none] (by decide) rfl

end BananasGithub
